import Mathlib

/-!
# Shallow embedding of the `redis-rs` RESP codec and stores

Byte buffers (`bytes::BytesMut`) are modelled as `List Nat` (each element a
byte value); `src.advance n` becomes `List.drop n` and slices become
`drop`/`take`.  Rust `String`s are modelled as their underlying byte lists
(UTF-8 validity is checked explicitly by `isUtf8`, mirroring
`std::str::from_utf8`).  Machine integers are `Int`/`Nat` with explicit
`% 2^64` where Rust casts (`as usize`) can wrap.  Fallible code returns
`Except`/`Option`; `Ok(None)` ("need more data") is `.ok (none, buffer)`.
-/

namespace RedisRs

/-- Error kinds raised by the decoder, one constructor per
`Err(Error::new(..))` site in `src/resp.rs` (the message strings are recorded
in comments).  `todoNullArray` models the `todo!` panic for `*-1`, and
`fuelOut` is the artificial out-of-fuel marker of the fuelled array parser
(unreachable for the inputs considered in the theorems below). -/
inductive DecodeError where
  /-- "Unknown RESP type byte" -/
  | unknownType
  /-- "Empty simple string" / "Empty integer" -/
  | emptyContent
  /-- "Invalid UTF-8 in bulk string length" / "Invalid UTF-8 in integer string" -/
  | invalidUtf8
  /-- "Invalid bulk string length format" -/
  | invalidLength
  /-- "Invalid integer format" -/
  | invalidInteger
  /-- "Invalid RESP data type" (inside an array) -/
  | invalidArrayElem
  /-- `todo!("implement null array data type")` -/
  | todoNullArray
  /-- artificial fuel exhaustion of the Lean model -/
  | fuelOut
deriving DecidableEq, Repr

/-- `RespDataType` from `src/resp.rs`; Rust `String` payloads are byte lists. -/
inductive RespDataType where
  | BulkString (s : List Nat)
  | NullBulkString
  | SimpleError (s : List Nat)
  | Array (elems : List RespDataType)
  | SimpleString (s : List Nat)
  | Integer (i : Int)

/-- Bytes of an ASCII string literal (every character below 128, so the
codepoint is the UTF-8 byte). -/
def ascii (s : String) : List Nat := s.data.map Char.toNat

/-- `find_crlf`: position of the first `\r\n` window (`src.windows(2).position`). -/
def findCrlf : List Nat → Option Nat
  | [] => none
  | [_] => none
  | a :: b :: rest =>
    if a = 13 ∧ b = 10 then some 0
    else (findCrlf (b :: rest)).map (· + 1)

/-- One ASCII decimal digit, as in Rust's integer `FromStr`. -/
def digitVal (b : Nat) : Option Nat :=
  if 48 ≤ b ∧ b ≤ 57 then some (b - 48) else none

/-- Accumulating digit parser: fails on any non-digit byte. -/
def parseDigitsAux : List Nat → Nat → Option Nat
  | [], acc => some acc
  | b :: rest, acc =>
    match digitVal b with
    | none => none
    | some d => parseDigitsAux rest (acc * 10 + d)

/-- Nonempty all-digit byte string to its value. -/
def parseDigits : List Nat → Option Nat
  | [] => none
  | b :: t => parseDigitsAux (b :: t) 0

/-- Rust's `str::parse::<i64>()` (also `isize` on a 64-bit target): optional
sign (`+` is 43, `-` is 45), one or more digits, in-range for signed 64-bit,
else `Err`. -/
def parseI64 (s : List Nat) : Option Int :=
  match s with
  | [] => none
  | b :: rest =>
    if b = 43 then
      (parseDigits rest).bind fun n =>
        if n ≤ 2 ^ 63 - 1 then some (n : Int) else none
    else if b = 45 then
      (parseDigits rest).bind fun n =>
        if n ≤ 2 ^ 63 then some (-(n : Int)) else none
    else
      (parseDigits (b :: rest)).bind fun n =>
        if n ≤ 2 ^ 63 - 1 then some (n : Int) else none

mutual

/-- UTF-8 validity of a byte list, as checked by `std::str::from_utf8`
(rejecting overlong forms, surrogates and values above U+10FFFF): a lead
byte selects the number of continuation bytes and the range of the first
one. -/
def isUtf8 : List Nat → Bool
  | [] => true
  | b :: rest =>
    if b < 128 then isUtf8 rest
    else if 194 ≤ b ∧ b ≤ 223 then utf8Tail1 128 191 rest
    else if b = 224 then utf8Tail2 160 191 rest
    else if 225 ≤ b ∧ b ≤ 236 then utf8Tail2 128 191 rest
    else if b = 237 then utf8Tail2 128 159 rest
    else if 238 ≤ b ∧ b ≤ 239 then utf8Tail2 128 191 rest
    else if b = 240 then utf8Tail3 144 191 rest
    else if 241 ≤ b ∧ b ≤ 243 then utf8Tail3 128 191 rest
    else if b = 244 then utf8Tail3 128 143 rest
    else false

/-- One continuation byte in `[lo, hi]`, then a fresh UTF-8 sequence. -/
def utf8Tail1 (lo hi : Nat) : List Nat → Bool
  | c :: r => decide (lo ≤ c ∧ c ≤ hi) && isUtf8 r
  | [] => false

/-- A continuation byte in `[lo, hi]`, then one standard continuation byte. -/
def utf8Tail2 (lo hi : Nat) : List Nat → Bool
  | c :: r => decide (lo ≤ c ∧ c ≤ hi) && utf8Tail1 128 191 r
  | [] => false

/-- A continuation byte in `[lo, hi]`, then two standard continuation bytes. -/
def utf8Tail3 (lo hi : Nat) : List Nat → Bool
  | c :: r => decide (lo ≤ c ∧ c ≤ hi) && utf8Tail2 128 191 r
  | [] => false

end

/-- `from_utf8`: the decoded `&str` is identified with its byte list. -/
def fromUtf8 (l : List Nat) : Option (List Nat) :=
  if isUtf8 l then some l else none

/-- The slice `src[a..b]` of a byte buffer. -/
def listSlice (l : List Nat) (a b : Nat) : List Nat := (l.drop a).take (b - a)

/-- Outcome of one parser call: an error, or `(decoded frame?, buffer left)`.
`(none, buf)` is Rust's `Ok(None)` with `buf` the (possibly advanced)
contents of `src` after the call. -/
abbrev ParseOut := Except DecodeError (Option RespDataType × List Nat)

/-- `parse_simple_string` from `src/resp.rs`. -/
def parse_simple_string (src : List Nat) : ParseOut :=
  match findCrlf src with
  | none => .ok (none, src)
  | some crlf_pos =>
    if crlf_pos = 1 then .error .emptyContent
    else
      match fromUtf8 (listSlice src 1 crlf_pos) with
      | none => .error .invalidUtf8
      | some content => .ok (some (.SimpleString content), src.drop (crlf_pos + 2))

/-- `parse_simple_errors` from `src/resp.rs` (identical to
`parse_simple_string` except for the produced constructor).  Note that
`RespCodec::decode` never calls it. -/
def parse_simple_errors (src : List Nat) : ParseOut :=
  match findCrlf src with
  | none => .ok (none, src)
  | some crlf_pos =>
    if crlf_pos = 1 then .error .emptyContent
    else
      match fromUtf8 (listSlice src 1 crlf_pos) with
      | none => .error .invalidUtf8
      | some content => .ok (some (.SimpleError content), src.drop (crlf_pos + 2))

/-- `parse_integer` from `src/resp.rs`. -/
def parse_integer (src : List Nat) : ParseOut :=
  match findCrlf src with
  | none => .ok (none, src)
  | some crlf_pos =>
    if crlf_pos = 1 then .error .emptyContent
    else
      match fromUtf8 (listSlice src 1 crlf_pos) with
      | none => .error .invalidUtf8
      | some integer_str =>
        match parseI64 integer_str with
        | none => .error .invalidInteger
        | some integer => .ok (some (.Integer integer), src.drop (crlf_pos + 2))

/-- `length as usize` for a 64-bit target: two's-complement cast of an
`isize` value to `usize`, i.e. reduction modulo `2^64`. -/
def asUsize (length : Int) : Nat := (length % (2 ^ 64 : Int)).toNat

/-- `parse_bulk_string` from `src/resp.rs`.  Faithful details: the `-1`
branch returns `NullBulkString` **without advancing** the buffer; a negative
length other than `-1` is cast with `as usize` (wrapping to a huge value);
the trailing two bytes are skipped by `advance(data_len + 2)` without being
compared against `\r\n`. -/
def parse_bulk_string (src : List Nat) : ParseOut :=
  match findCrlf src with
  | none => .ok (none, src)
  | some crlf_pos =>
    if crlf_pos = 1 then .error .emptyContent
    else
      match fromUtf8 (listSlice src 1 crlf_pos) with
      | none => .error .invalidUtf8
      | some length_str =>
        match parseI64 length_str with
        | none => .error .invalidLength
        | some length =>
          if length = -1 then .ok (some .NullBulkString, src)
          else
            let data_len := asUsize length
            if src.length < (crlf_pos + 2) + data_len + 2 then .ok (none, src)
            else
              let src2 := src.drop (crlf_pos + 2)
              match fromUtf8 (src2.take data_len) with
              | none => .error .invalidUtf8
              | some content =>
                .ok (some (.BulkString content), src2.drop (data_len + 2))

/-- Result of the element-collecting loop of `parse_array`. -/
abbrev ElemsOut := Except DecodeError (Option (List RespDataType) × List Nat)

mutual

/-- `parse_array` from `src/resp.rs`, with a fuel argument added to make the
recursion structural (the Rust function recurses through the element loop).
Faithful details: the header `*<n>\r\n` is consumed **before** the elements
are examined, so an incomplete element list still eats the header; the
element dispatch only accepts `+`, `*` and `$`; `*-1` hits a `todo!`.
Every cycle of the Rust recursion consumes at least four header bytes, so a
fuel of `src.length + 1` (used by `decode`) can never run out on inputs the
Rust code finishes parsing into a frame. -/
def parse_array : Nat → List Nat → ParseOut
  | 0, _ => .error .fuelOut
  | fuel + 1, src =>
    match findCrlf src with
    | none => .ok (none, src)
    | some crlf_pos =>
      if crlf_pos = 1 then .error .emptyContent
      else
        match fromUtf8 (listSlice src 1 crlf_pos) with
        | none => .error .invalidUtf8
        | some num_elements_str =>
          match parseI64 num_elements_str with
          | none => .error .invalidLength
          | some n =>
            if n = -1 then .error .todoNullArray
            else
              match parse_elems fuel (asUsize n) (src.drop (crlf_pos + 2)) with
              | .error e => .error e
              | .ok (none, s2) => .ok (none, s2)
              | .ok (some elems, s2) => .ok (some (.Array elems), s2)
termination_by structural fuel => fuel

/-- The `for _ in 0..num_elements` loop body of `parse_array`: pops one
element per iteration, threading the advanced buffer. -/
def parse_elems : Nat → Nat → List Nat → ElemsOut
  | 0, _, _ => .error .fuelOut
  | _ + 1, 0, src => .ok (some [], src)
  | fuel + 1, n + 1, src =>
    match src with
    | [] => .ok (none, [])
    | b :: t =>
      let step : ParseOut :=
        if b = 43 then parse_simple_string (b :: t)
        else if b = 42 then parse_array fuel (b :: t)
        else if b = 36 then parse_bulk_string (b :: t)
        else .error .invalidArrayElem
      match step with
      | .error e => .error e
      | .ok (none, s1) => .ok (none, s1)
      | .ok (some elem, s1) =>
        match parse_elems fuel n s1 with
        | .error e => .error e
        | .ok (none, s2) => .ok (none, s2)
        | .ok (some elems, s2) => .ok (some (elem :: elems), s2)
termination_by structural fuel => fuel

end

/-- `RespCodec::decode` from `src/resp.rs`: dispatch on the first byte.
`+` is 43, `*` is 42, `$` is 36, `:` is 58; every other leading byte —
**including `-` (45)** — is an "Unknown RESP type byte" error. -/
def decode (src : List Nat) : ParseOut :=
  match src with
  | [] => .ok (none, [])
  | b :: t =>
    if b = 43 then parse_simple_string (b :: t)
    else if b = 42 then parse_array (src.length + 1) (b :: t)
    else if b = 36 then parse_bulk_string (b :: t)
    else if b = 58 then parse_integer (b :: t)
    else .error .unknownType

/-- Decimal digits of a natural number, most significant first, with a fuel
argument so the definition is structural (`n + 1` fuel always suffices). -/
def natDigitsAux : Nat → Nat → List Nat → List Nat
  | 0, _, acc => acc
  | fuel + 1, n, acc =>
    if n < 10 then (48 + n) :: acc
    else natDigitsAux fuel (n / 10) ((48 + n % 10) :: acc)

/-- `usize::to_string` / the digits of `n` in base 10 (`"0"` for zero). -/
def natDigits (n : Nat) : List Nat := natDigitsAux (n + 1) n []

/-- `i64::to_string`: a `-` sign for negatives, then the decimal digits. -/
def intDigits (i : Int) : List Nat :=
  if i < 0 then 45 :: natDigits i.natAbs else natDigits i.toNat

mutual

/-- `RespDataType::as_bytes` from `src/resp.rs`. -/
def as_bytes : RespDataType → List Nat
  | .SimpleString s => 43 :: s ++ [13, 10]
  | .SimpleError s => 45 :: s ++ [13, 10]
  | .BulkString s => 36 :: natDigits s.length ++ [13, 10] ++ s ++ [13, 10]
  | .NullBulkString => [36, 45, 49, 13, 10]
  | .Array arr => 42 :: natDigits arr.length ++ [13, 10] ++ encodeList arr
  | .Integer i => 58 :: intDigits i ++ [13, 10]

/-- Concatenated encodings of the elements of an array. -/
def encodeList : List RespDataType → List Nat
  | [] => []
  | f :: fs => as_bytes f ++ encodeList fs

end

/-! ## Association-list model of `HashMap`

`HashMap<String, V>` is modelled as an association list without duplicate
keys; `get`/`insert`/`remove` have the map semantics the Rust code relies
on. -/

/-- `HashMap::get`. -/
def alGet {α : Type} : List (String × α) → String → Option α
  | [], _ => none
  | (k', v') :: rest, k => if k' = k then some v' else alGet rest k

/-- `HashMap::insert` (overwrites an existing binding). -/
def alPut {α : Type} : List (String × α) → String → α → List (String × α)
  | [], k, v => [(k, v)]
  | (k', v') :: rest, k, v =>
    if k' = k then (k, v) :: rest else (k', v') :: alPut rest k v

/-- `HashMap::remove`. -/
def alRemove {α : Type} : List (String × α) → String → List (String × α)
  | [], _ => []
  | (k', v') :: rest, k => if k' = k then rest else (k', v') :: alRemove rest k

/-! ## `src/data_structures/list.rs` -/

/-- The list store: key → `VecDeque<String>`, front of the deque first. -/
abbrev Lists := List (String × List (List Nat))

/-- `Lists::left_pop` from `src/data_structures/list.rs`.  Returns the reply
and the updated store.  Faithful detail: the guard
`Some(list) if !list.inner.is_empty()` sends **both** an absent key and an
empty list to `NullBulkString`, for a `Some(count)` just as for `None`. -/
def left_pop (store : Lists) (key : String) (count : Option Int) :
    RespDataType × Lists :=
  match alGet store key with
  | none => (.NullBulkString, store)
  | some l =>
    match l with
    | [] => (.NullBulkString, store)
    | x :: xs =>
      match count with
      | some n =>
        let m := min (max n 0).toNat (x :: xs).length
        (.Array (((x :: xs).take m).map .BulkString),
          alPut store key ((x :: xs).drop m))
      | none => (.BulkString x, alPut store key xs)

/-- `normalize_index` from `src/data_structures/list.rs`:
`(if index < 0 { len + index } else { index }).clamp(0, len - 1) as usize`.
Only reached with `len ≥ 1` (the `len == 0` case returns early). -/
def normalize_index (index len : Int) : Nat :=
  let normalized := if index < 0 then len + index else index
  (min (max normalized 0) (len - 1)).toNat

/-- `Lists::lrange` from `src/data_structures/list.rs`; the inclusive
`range(start_idx..=stop_idx)` is `drop start` then `take (stop - start + 1)`. -/
def lrange (store : Lists) (key : String) (start stop : Int) : RespDataType :=
  match alGet store key with
  | none => .Array []
  | some l =>
    let len : Int := l.length
    if len = 0 then .Array []
    else
      let start_idx := normalize_index start len
      let stop_idx := normalize_index stop len
      if start_idx > stop_idx then .Array []
      else .Array (((l.drop start_idx).take (stop_idx - start_idx + 1)).map .BulkString)

/-! ## `src/data_structures/strings.rs`

`Instant` is modelled as a `Nat`; `Value::is_expired(now)` is
`expires_at.is_some_and(|e| now > e)`. -/

/-- `Value` from `src/data_structures/strings.rs`. -/
structure StrValue where
  data : List Nat
  expires_at : Option Nat

/-- `Value::is_expired`. -/
def is_expired (v : StrValue) (now : Nat) : Bool :=
  match v.expires_at with
  | some e => now > e
  | none => false

/-- The string store: key → `Value`. -/
abbrev Strings := List (String × StrValue)

/-- Two's-complement wrap-around of an `i64` addition result, the release-mode
semantics of the unchecked `current_value + 1` (debug builds panic instead of
wrapping; either way no error value is produced). -/
def wrapI64 (x : Int) : Int := (x + 2 ^ 63) % 2 ^ 64 - 2 ^ 63

/-- `Strings::increment` from `src/data_structures/strings.rs`, given the
current instant.  Faithful details: an expired entry is removed and the call
answers with the placeholder `SimpleError "Key expired - later stage"`; the
increment itself is an unchecked `+ 1`. -/
def increment (store : Strings) (key : String) (now : Nat) :
    RespDataType × Strings :=
  match alGet store key with
  | some entry =>
    if is_expired entry now then
      (.SimpleError (ascii "Key expired - later stage"), alRemove store key)
    else
      match parseI64 entry.data with
      | some current_value =>
        let new_value := wrapI64 (current_value + 1)
        (.Integer new_value,
          alPut store key { data := intDigits new_value, expires_at := entry.expires_at })
      | none =>
        (.SimpleError (ascii "ERR value is not an integer or out of range"), store)
  | none =>
    (.Integer 1, alPut store key { data := natDigits 1, expires_at := none })

/-! ## `src/server.rs`: the per-connection transaction machine -/

/-- `Command` from `src/cmd.rs` (payload strings are byte lists, keys are
`String`s, durations are milliseconds). -/
inductive Command where
  | PING
  | ECHO (msg : List Nat)
  | SET (key : String) (val : List Nat) (px : Option Nat)
  | GET (key : String)
  | RPUSH (key : String) (elements : List (List Nat))
  | LRANGE (key : String) (start stop : Int)
  | LPUSH (key : String) (elements : List (List Nat))
  | LLEN (key : String)
  | LPOP (key : String) (count : Option Int)
  | BLPOP (keys : List String) (timeout : Nat)
  | INCR (key : String)
  | MULTI
  | EXEC
  | DISCARD
  | INFO (sec : Option Unit)
  | REPLCONF
  | PSYNC (replication_id : List Nat) (offset : Int)
deriving DecidableEq

/-- The loop of `Connection::execute_transaction`, with `send` standing for
`self.storage.send(cmd).await`.  `none` models the
`panic!("MULTI or EXEC should not be queued in a transaction")`. -/
def execute_transaction_loop (send : Command → RespDataType) :
    List Command → Option (List RespDataType)
  | [] => some []
  | c :: rest =>
    match c with
    | .PING => (execute_transaction_loop send rest).map (.SimpleString (ascii "PONG") :: ·)
    | .ECHO msg => (execute_transaction_loop send rest).map (.BulkString msg :: ·)
    | .EXEC => none
    | .MULTI => none
    | c => (execute_transaction_loop send rest).map (send c :: ·)

/-- `Connection::execute_transaction` from `src/server.rs`. -/
def execute_transaction (send : Command → RespDataType) (queued_cmds : List Command) :
    Option RespDataType :=
  (execute_transaction_loop send queued_cmds).map .Array

/-- `Connection::handle_transaction_command` from `src/server.rs`, acting on
the `transaction_queue` (`some` = inside MULTI).  Result: `none` for a panic,
otherwise the reply together with the new queue.  Faithful detail: the
catch-all arm pushes **any** command other than EXEC/DISCARD — including
`MULTI` — onto the queue and replies `QUEUED`. -/
def handle_transaction_command (send : Command → RespDataType)
    (transaction_queue : Option (List Command)) (cmd : Command) :
    Option (RespDataType × Option (List Command)) :=
  match cmd with
  | .EXEC =>
    match transaction_queue with
    | some queued_cmds =>
      if queued_cmds = [] then some (.Array [], none)
      else (execute_transaction send queued_cmds).map (fun r => (r, none))
    | none => some (.SimpleError (ascii "ERR EXEC without MULTI"), none)
  | .DISCARD => some (.SimpleString (ascii "OK"), none)
  | _ =>
    match transaction_queue with
    | some queued_cmds =>
      some (.SimpleString (ascii "QUEUED"), some (queued_cmds ++ [cmd]))
    | none => some (.SimpleString (ascii "QUEUED"), none)

/-! ## The grammar sub-language that the codec round-trips

`WfElem` captures the frames the claims' grammar produces, restricted to the
shapes `parse_array`'s element dispatch can read back: simple strings are
nonempty and CR/LF-free (the spec's frame invariant), bulk payloads are valid
UTF-8 (they come from Rust `String`s) of representable length, and arrays
nest only these shapes.  `WfTop` additionally admits `Integer` frames at top
level, where `decode` dispatches on `:`. -/

inductive WfElem : RespDataType → Prop where
  | simple (s : List Nat) (hne : s ≠ []) (hno : ∀ b ∈ s, b ≠ 13 ∧ b ≠ 10)
      (hutf : isUtf8 s = true) : WfElem (.SimpleString s)
  | bulk (s : List Nat) (hutf : isUtf8 s = true) (hlen : s.length < 2 ^ 63) :
      WfElem (.BulkString s)
  | arr (l : List RespDataType) (helems : ∀ f ∈ l, WfElem f)
      (hlen : l.length < 2 ^ 63) : WfElem (.Array l)

/-- Top-level well-formed frames: `WfElem` shapes, plus `Integer`s in the
signed 64-bit range. -/
def WfTop (f : RespDataType) : Prop :=
  WfElem f ∨ ∃ i, f = .Integer i ∧ -(2 ^ 63) ≤ i ∧ i < 2 ^ 63

mutual

/-- Fuel sufficient for `parse_array` to parse the encoding of a frame when
it occurs as an array element (0 for non-arrays, which use no fuel). -/
def needF : RespDataType → Nat
  | .Array l => 1 + needL l
  | .BulkString _ => 0
  | .NullBulkString => 0
  | .SimpleError _ => 0
  | .SimpleString _ => 0
  | .Integer _ => 0

/-- Fuel sufficient for `parse_elems` to parse an encoded element list. -/
def needL : List RespDataType → Nat
  | [] => 1
  | f :: fs => 1 + max (needF f) (needL fs)

end

/-- The element dispatch performed by one iteration of `parse_elems`
(`+`/`*`/`$` or the "Invalid RESP data type" error). -/
def parse_elem_step (fuel : Nat) (src : List Nat) : ParseOut :=
  match src with
  | [] => .ok (none, [])
  | b :: t =>
    if b = 43 then parse_simple_string (b :: t)
    else if b = 42 then parse_array fuel (b :: t)
    else if b = 36 then parse_bulk_string (b :: t)
    else .error .invalidArrayElem

/-- The index-normalisation rule exactly as the spec words it:
`idx' = idx < 0 ? max(0, len+idx) : min(idx, len−1)`. -/
def normSpecIdx (idx len : Int) : Int :=
  if idx < 0 then max 0 (len + idx) else min idx (len - 1)

/-- `LRANGE` as the spec describes it: normalise both indices by
`normSpecIdx`, take the inclusive slice, and return an empty array when
`start' > stop'` or the list is empty or absent. -/
def lrangeSpec (store : Lists) (key : String) (start stop : Int) : RespDataType :=
  match alGet store key with
  | none => .Array []
  | some l =>
    if l.length = 0 then .Array []
    else
      let s := normSpecIdx start l.length
      let e := normSpecIdx stop l.length
      if s > e then .Array []
      else .Array (((l.drop s.toNat).take (e - s + 1).toNat).map .BulkString)

/-! ## Lemmas about decimal rendering and parsing -/

theorem natDigitsAux_mem {fuel n : Nat} {acc : List Nat} {b : Nat}
    (hb : b ∈ natDigitsAux fuel n acc) : (48 ≤ b ∧ b ≤ 57) ∨ b ∈ acc := by
  induction fuel generalizing n acc with
  | zero => exact .inr hb
  | succ fuel ih =>
    rw [natDigitsAux] at hb
    split at hb
    · rcases List.mem_cons.mp hb with h | h
      · exact .inl (by omega)
      · exact .inr h
    · rcases ih hb with h | h
      · exact .inl h
      · rcases List.mem_cons.mp h with h' | h'
        · have : n % 10 < 10 := Nat.mod_lt _ (by omega)
          exact .inl (by omega)
        · exact .inr h'

theorem natDigits_mem {n b : Nat} (hb : b ∈ natDigits n) : 48 ≤ b ∧ b ≤ 57 := by
  rcases natDigitsAux_mem hb with h | h
  · exact h
  · simp at h

theorem natDigitsAux_append (fuel : Nat) :
    ∀ (n : Nat) (acc : List Nat),
      natDigitsAux fuel n acc = natDigitsAux fuel n [] ++ acc := by
  induction fuel with
  | zero => intro n acc; simp [natDigitsAux]
  | succ fuel ih =>
    intro n acc
    rw [natDigitsAux, natDigitsAux]
    split
    · simp
    · rw [ih (n / 10) ((48 + n % 10) :: acc), ih (n / 10) [48 + n % 10]]
      simp

theorem natDigitsAux_fuel (n : Nat) :
    ∀ f1 f2 acc, n < f1 → n < f2 →
      natDigitsAux f1 n acc = natDigitsAux f2 n acc := by
  induction n using Nat.strong_induction_on with
  | _ n ih =>
    intro f1 f2 acc h1 h2
    match f1, f2 with
    | a1 + 1, a2 + 1 =>
      rw [natDigitsAux, natDigitsAux]
      split
      · rfl
      · have hdiv : n / 10 < n := Nat.div_lt_self (by omega) (by omega)
        exact ih (n / 10) hdiv a1 a2 _ (by omega) (by omega)

theorem natDigits_ne_nil (n : Nat) : natDigits n ≠ [] := by
  rw [natDigits, natDigitsAux]
  split
  · simp
  · rw [natDigitsAux_append]
    simp

theorem natDigits_step {n : Nat} (h : 10 ≤ n) :
    natDigits n = natDigits (n / 10) ++ [48 + n % 10] := by
  rw [natDigits, natDigitsAux]
  split
  · omega
  · rw [natDigitsAux_append, natDigits,
      natDigitsAux_fuel (n / 10) n (n / 10 + 1) []
        (Nat.lt_of_lt_of_le (Nat.div_lt_self (by omega) (by omega)) (by omega))
        (by omega)]

theorem parseDigitsAux_append_digit (l : List Nat) :
    ∀ (a b : Nat), parseDigitsAux (l ++ [b]) a =
      (parseDigitsAux l a).bind fun v => (digitVal b).map fun d => v * 10 + d := by
  induction l with
  | nil =>
    intro a b
    simp only [List.nil_append, parseDigitsAux]
    cases h : digitVal b <;> simp [h, parseDigitsAux]
  | cons c t ih =>
    intro a b
    simp only [List.cons_append, parseDigitsAux]
    cases h : digitVal c <;> simp [h, ih]

theorem parseDigitsAux_natDigits (n : Nat) : parseDigitsAux (natDigits n) 0 = some n := by
  induction n using Nat.strong_induction_on with
  | _ n ih =>
    by_cases h : n < 10
    · have hd : natDigits n = [48 + n] := by
        rw [natDigits, natDigitsAux]
        split
        · rfl
        · omega
      have hv : digitVal (48 + n) = some n := by
        rw [digitVal, if_pos (by omega)]
        congr 1
        omega
      rw [hd]
      simp [parseDigitsAux, hv]
    · rw [natDigits_step (by omega), parseDigitsAux_append_digit,
        ih (n / 10) (Nat.div_lt_self (by omega) (by omega))]
      have hv : digitVal (48 + n % 10) = some (n % 10) := by
        rw [digitVal, if_pos (by omega)]
        congr 1
        omega
      simp [hv]
      omega

theorem parseDigits_natDigits (n : Nat) : parseDigits (natDigits n) = some n := by
  rcases List.exists_cons_of_ne_nil (natDigits_ne_nil n) with ⟨b, t, hbt⟩
  rw [hbt, parseDigits, ← hbt, parseDigitsAux_natDigits]


theorem parseI64_natDigits {n : Nat} (h : n < 2 ^ 63) :
    parseI64 (natDigits n) = some (n : Int) := by
  rcases List.exists_cons_of_ne_nil (natDigits_ne_nil n) with ⟨b, t, hbt⟩
  have hb : 48 ≤ b ∧ b ≤ 57 := natDigits_mem (hbt ▸ List.mem_cons_self b t)
  rw [hbt, parseI64]
  rw [if_neg (by omega), if_neg (by omega), ← hbt, parseDigits_natDigits]
  simp
  omega

theorem parseI64_intDigits {i : Int} (hlo : -(2 ^ 63) ≤ i) (hhi : i < 2 ^ 63) :
    parseI64 (intDigits i) = some i := by
  rw [intDigits]
  split
  · rename_i hneg
    rw [parseI64, if_neg (by omega), if_pos rfl, parseDigits_natDigits]
    have hle : i.natAbs ≤ 2 ^ 63 := by omega
    simp only [Option.some_bind, if_pos hle]
    congr 1
    omega
  · rename_i hpos
    rw [parseI64_natDigits (by omega)]
    congr 1
    omega

/-! ## Lemmas about `find_crlf`, UTF-8 and buffer slicing -/

theorem findCrlf_cons {a : Nat} (l : List Nat) (ha : a ≠ 13) :
    findCrlf (a :: l) = (findCrlf l).map (· + 1) := by
  match l with
  | [] => rfl
  | b :: t =>
    rw [findCrlf, if_neg (by omega)]

theorem findCrlf_append_crlf {s : List Nat} (hs : ∀ b ∈ s, b ≠ 13) (t : List Nat) :
    findCrlf (s ++ 13 :: 10 :: t) = some s.length := by
  induction s with
  | nil =>
    rw [List.nil_append, findCrlf, if_pos ⟨rfl, rfl⟩]
    rfl
  | cons a s' ih =>
    rw [List.cons_append, findCrlf_cons _ (hs a (List.mem_cons_self a s')),
      ih fun b hb => hs b (List.mem_cons_of_mem a hb)]
    rfl

theorem isUtf8_ascii {l : List Nat} (h : ∀ b ∈ l, b < 128) : isUtf8 l = true := by
  induction l with
  | nil => rfl
  | cons b t ih =>
    rw [isUtf8, if_pos (h b (List.mem_cons_self b t))]
    exact ih fun c hc => h c (List.mem_cons_of_mem b hc)

theorem fromUtf8_of_isUtf8 {l : List Nat} (h : isUtf8 l = true) : fromUtf8 l = some l := by
  rw [fromUtf8, if_pos h]

theorem listSlice_header (b : Nat) (s t : List Nat) :
    listSlice (b :: (s ++ t)) 1 (s.length + 1) = s := by
  rw [listSlice, List.drop_succ_cons, List.drop_zero, Nat.add_sub_cancel]
  exact List.take_left s t

theorem drop_header (b : Nat) (s t : List Nat) :
    (b :: (s ++ 13 :: 10 :: t)).drop (s.length + 1 + 2) = t := by
  have h1 : s.length + 1 + 2 = s.length + 2 + 1 := by omega
  have h2 : s ++ 13 :: 10 :: t = (s ++ [13, 10]) ++ t := by simp
  rw [h1, List.drop_succ_cons, h2]
  exact List.drop_left' (by simp)

/-! ## Behaviour of the leaf parsers on well-formed encodings -/

/-- `parse_simple_string` on `+<s>\r\n<rest>` yields `SimpleString s` and
leaves exactly `rest`, for nonempty CR/LF-free UTF-8 `s`. -/
theorem parse_simple_string_spec {s : List Nat} (hne : s ≠ [])
    (hno : ∀ b ∈ s, b ≠ 13 ∧ b ≠ 10) (hutf : isUtf8 s = true) (rest : List Nat) :
    parse_simple_string (43 :: (s ++ 13 :: 10 :: rest)) =
      .ok (some (.SimpleString s), rest) := by
  have hcrlf : findCrlf (43 :: (s ++ 13 :: 10 :: rest)) = some (s.length + 1) := by
    rw [findCrlf_cons _ (by omega), findCrlf_append_crlf (fun b hb => (hno b hb).1)]
    rfl
  have hne' : s.length + 1 ≠ 1 := by
    have := List.length_pos.mpr hne
    omega
  rw [parse_simple_string, hcrlf]
  simp only []
  rw [if_neg hne', listSlice_header 43 s (13 :: 10 :: rest), fromUtf8_of_isUtf8 hutf]
  simp only []
  rw [drop_header]

/-- `parse_integer` on `:<i>\r\n<rest>` yields `Integer i` for `i` in the
signed 64-bit range. -/
theorem parse_integer_spec {i : Int} (hlo : -(2 ^ 63) ≤ i) (hhi : i < 2 ^ 63)
    (rest : List Nat) :
    parse_integer (58 :: (intDigits i ++ 13 :: 10 :: rest)) =
      .ok (some (.Integer i), rest) := by
  have hmem : ∀ b ∈ intDigits i, b ≠ 13 ∧ b < 128 := by
    intro b hb
    rw [intDigits] at hb
    split at hb
    · rcases List.mem_cons.mp hb with h | h
      · omega
      · have := natDigits_mem h
        omega
    · have := natDigits_mem hb
      omega
  have hcrlf : findCrlf (58 :: (intDigits i ++ 13 :: 10 :: rest)) =
      some ((intDigits i).length + 1) := by
    rw [findCrlf_cons _ (by omega), findCrlf_append_crlf (fun b hb => (hmem b hb).1)]
    rfl
  have hne : intDigits i ≠ [] := by
    rw [intDigits]
    split
    · simp
    · exact natDigits_ne_nil _
  have hne' : (intDigits i).length + 1 ≠ 1 := by
    have := List.length_pos.mpr hne
    omega
  rw [parse_integer, hcrlf]
  simp only []
  rw [if_neg hne', listSlice_header 58 (intDigits i) (13 :: 10 :: rest),
    fromUtf8_of_isUtf8 (isUtf8_ascii fun b hb => (hmem b hb).2)]
  simp only []
  rw [parseI64_intDigits hlo hhi]
  simp only []
  rw [drop_header]

/-- `asUsize` is the identity on representable nonnegative lengths. -/
theorem asUsize_ofNat {n : Nat} (h : n < 2 ^ 64) : asUsize (n : Int) = n := by
  rw [asUsize]
  omega

/-- `parse_bulk_string` on `$<n>\r\n` + `n` payload bytes + two arbitrary
bytes + `rest` yields `BulkString payload` and leaves exactly `rest`: the
two bytes standing where the trailing CRLF belongs are never compared
against `\r\n`. -/
theorem parse_bulk_string_spec {s : List Nat} (hlen : s.length < 2 ^ 63)
    (hutf : isUtf8 s = true) (t1 t2 : Nat) (rest : List Nat) :
    parse_bulk_string (36 :: (natDigits s.length ++ 13 :: 10 :: (s ++ t1 :: t2 :: rest))) =
      .ok (some (.BulkString s), rest) := by
  have hdig : ∀ b ∈ natDigits s.length, b ≠ 13 := by
    intro b hb
    have := natDigits_mem hb
    omega
  have hcrlf : findCrlf (36 :: (natDigits s.length ++ 13 :: 10 :: (s ++ t1 :: t2 :: rest))) =
      some ((natDigits s.length).length + 1) := by
    rw [findCrlf_cons _ (by omega), findCrlf_append_crlf hdig]
    rfl
  have hne' : (natDigits s.length).length + 1 ≠ 1 := by
    have := List.length_pos.mpr (natDigits_ne_nil s.length)
    omega
  rw [parse_bulk_string, hcrlf]
  simp only []
  rw [if_neg hne',
    listSlice_header 36 (natDigits s.length) (13 :: 10 :: (s ++ t1 :: t2 :: rest)),
    fromUtf8_of_isUtf8 (isUtf8_ascii fun b hb => by have := natDigits_mem hb; omega)]
  simp only []
  rw [parseI64_natDigits hlen]
  simp only []
  rw [if_neg (by omega)]
  have hcast : asUsize ((s.length : Nat) : Int) = s.length := asUsize_ofNat (by omega)
  simp only [hcast]
  have hlength : (36 :: (natDigits s.length ++ 13 :: 10 :: (s ++ t1 :: t2 :: rest))).length =
      (natDigits s.length).length + 1 + 2 + s.length + 2 + rest.length := by
    simp
    omega
  rw [if_neg (by rw [hlength]; omega)]
  rw [drop_header 36 (natDigits s.length) (s ++ t1 :: t2 :: rest)]
  have htake : (s ++ t1 :: t2 :: rest).take s.length = s := List.take_left s (t1 :: t2 :: rest)
  rw [htake, fromUtf8_of_isUtf8 hutf]
  simp only []
  have hdrop2 : (s ++ t1 :: t2 :: rest).drop (s.length + 2) = rest := by
    have h1 : s ++ t1 :: t2 :: rest = (s ++ [t1, t2]) ++ rest := by simp
    rw [h1]
    exact List.drop_left' (by simp)
  rw [hdrop2]

/-! ## Round-trip through `parse_array` -/

theorem as_bytes_length_pos (f : RespDataType) : 1 ≤ (as_bytes f).length := by
  cases f <;> simp [as_bytes]

theorem needL_le (l : List RespDataType)
    (h : ∀ f ∈ l, needF f ≤ (as_bytes f).length) :
    needL l ≤ (encodeList l).length + 2 := by
  induction l with
  | nil => simp [needL, encodeList]
  | cons f fs ih =>
    have h1 : needF f ≤ (as_bytes f).length := h f (List.mem_cons_self f fs)
    have h2 : needL fs ≤ (encodeList fs).length + 2 :=
      ih fun g hg => h g (List.mem_cons_of_mem f hg)
    have h3 : 1 ≤ (as_bytes f).length := as_bytes_length_pos f
    rw [needL, encodeList, List.length_append]
    omega

/-- The fuel a well-formed frame needs is bounded by the length of its own
encoding. -/
theorem needF_le_length {f : RespDataType} (h : WfElem f) :
    needF f ≤ (as_bytes f).length := by
  induction h with
  | simple s hne hno hutf => simp [needF]
  | bulk s hutf hlen => simp [needF]
  | arr l helems hlen ih =>
    have := needL_le l ih
    rw [needF, as_bytes]
    simp only [List.length_cons, List.length_append]
    omega

theorem parse_elems_succ (fuel n : Nat) (src : List Nat) :
    parse_elems (fuel + 1) (n + 1) src =
      match parse_elem_step fuel src with
      | .error e => .error e
      | .ok (none, s1) => .ok (none, s1)
      | .ok (some elem, s1) =>
        match parse_elems fuel n s1 with
        | .error e => .error e
        | .ok (none, s2) => .ok (none, s2)
        | .ok (some elems, s2) => .ok (some (elem :: elems), s2) := by
  cases src <;> rfl

/-- The element loop succeeds on the concatenated encodings of a list of
frames whose encodings it can read back, consuming exactly those bytes. -/
theorem parse_elems_encodeList (l : List RespDataType)
    (hRT : ∀ f ∈ l, ∀ fuel rest, needF f ≤ fuel →
      parse_elem_step fuel (as_bytes f ++ rest) = .ok (some f, rest)) :
    ∀ fuel rest, needL l ≤ fuel →
      parse_elems fuel l.length (encodeList l ++ rest) = .ok (some l, rest) := by
  induction l with
  | nil =>
    intro fuel rest hfuel
    have h1 : 1 ≤ fuel := le_trans (by rw [needL]) hfuel
    obtain ⟨k, rfl⟩ : ∃ k, fuel = k + 1 := ⟨fuel - 1, by omega⟩
    rw [encodeList, List.nil_append, List.length_nil]
    rfl
  | cons f fs ih =>
    intro fuel rest hfuel
    rw [needL] at hfuel
    obtain ⟨k, rfl⟩ : ∃ k, fuel = k + 1 := ⟨fuel - 1, by omega⟩
    rw [encodeList, List.length_cons, List.append_assoc, parse_elems_succ,
      hRT f (List.mem_cons_self f fs) k (encodeList fs ++ rest) (by omega)]
    simp only []
    rw [ih (fun g hg => hRT g (List.mem_cons_of_mem f hg)) k rest (by omega)]

/-- The element dispatch on a buffer starting with `*` is `parse_array`. -/
theorem parse_elem_step_array (fuel : Nat) (t : List Nat) :
    parse_elem_step fuel (42 :: t) = parse_array fuel (42 :: t) := by
  rw [parse_elem_step]
  simp

/-- Core round-trip: the element dispatch reads back the encoding of any
well-formed frame, given enough fuel, and consumes exactly its bytes. -/
theorem parse_elem_step_encode {f : RespDataType} (h : WfElem f) :
    ∀ fuel rest, needF f ≤ fuel →
      parse_elem_step fuel (as_bytes f ++ rest) = .ok (some f, rest) := by
  induction h with
  | simple s hne hno hutf =>
    intro fuel rest _
    have hshape : as_bytes (.SimpleString s) ++ rest = 43 :: (s ++ 13 :: 10 :: rest) := by
      simp [as_bytes]
    rw [hshape, parse_elem_step]
    simp only [if_true]
    exact parse_simple_string_spec hne hno hutf rest
  | bulk s hutf hlen =>
    intro fuel rest _
    have hshape : as_bytes (.BulkString s) ++ rest =
        36 :: (natDigits s.length ++ 13 :: 10 :: (s ++ 13 :: 10 :: rest)) := by
      simp [as_bytes]
    rw [hshape, parse_elem_step]
    simp only [if_true]
    exact parse_bulk_string_spec hlen hutf 13 10 rest
  | arr l helems hlen ih =>
    intro fuel rest hfuel
    rw [needF] at hfuel
    obtain ⟨k, rfl⟩ : ∃ k, fuel = k + 1 := ⟨fuel - 1, by omega⟩
    have hshape : as_bytes (.Array l) ++ rest =
        42 :: (natDigits l.length ++ 13 :: 10 :: (encodeList l ++ rest)) := by
      simp [as_bytes]
    rw [hshape, parse_elem_step_array, parse_array]
    have hdig : ∀ b ∈ natDigits l.length, b ≠ 13 := by
      intro b hb
      have := natDigits_mem hb
      omega
    have hcrlf : findCrlf (42 :: (natDigits l.length ++ 13 :: 10 :: (encodeList l ++ rest))) =
        some ((natDigits l.length).length + 1) := by
      rw [findCrlf_cons _ (by omega), findCrlf_append_crlf hdig]
      rfl
    have hne' : (natDigits l.length).length + 1 ≠ 1 := by
      have := List.length_pos.mpr (natDigits_ne_nil l.length)
      omega
    rw [hcrlf]
    simp only []
    rw [if_neg hne',
      listSlice_header 42 (natDigits l.length) (13 :: 10 :: (encodeList l ++ rest)),
      fromUtf8_of_isUtf8 (isUtf8_ascii fun b hb => by have := natDigits_mem hb; omega)]
    simp only []
    rw [parseI64_natDigits hlen]
    simp only []
    rw [if_neg (by omega)]
    have hcast : asUsize ((l.length : Nat) : Int) = l.length := asUsize_ofNat (by omega)
    simp only [hcast]
    rw [drop_header 42 (natDigits l.length) (encodeList l ++ rest)]
    rw [parse_elems_encodeList l (fun g hg => ih g hg) k rest (by omega)]

/-! ## `decode`'s dispatch on the first byte -/

theorem decode_cons_43 (t : List Nat) : decode (43 :: t) = parse_simple_string (43 :: t) := by
  rw [decode]
  simp

theorem decode_cons_42 (t : List Nat) :
    decode (42 :: t) = parse_array ((42 :: t).length + 1) (42 :: t) := by
  rw [decode]
  simp

theorem decode_cons_36 (t : List Nat) : decode (36 :: t) = parse_bulk_string (36 :: t) := by
  rw [decode]
  simp

theorem decode_cons_58 (t : List Nat) : decode (58 :: t) = parse_integer (58 :: t) := by
  rw [decode]
  simp

/-- Round-trip of `decode` over the sub-grammar `WfTop`: decoding the
encoding of a well-formed frame yields the frame back and consumes exactly
its bytes. -/
theorem decode_as_bytes_wfTop {f : RespDataType} (h : WfTop f) (rest : List Nat) :
    decode (as_bytes f ++ rest) = .ok (some f, rest) := by
  rcases h with helem | ⟨i, rfl, hlo, hhi⟩
  · cases helem with
    | simple s hne hno hutf =>
      have hshape : as_bytes (.SimpleString s) ++ rest = 43 :: (s ++ 13 :: 10 :: rest) := by
        simp [as_bytes]
      rw [hshape, decode_cons_43]
      exact parse_simple_string_spec hne hno hutf rest
    | bulk s hutf hlen =>
      have hshape : as_bytes (.BulkString s) ++ rest =
          36 :: (natDigits s.length ++ 13 :: 10 :: (s ++ 13 :: 10 :: rest)) := by
        simp [as_bytes]
      rw [hshape, decode_cons_36]
      exact parse_bulk_string_spec hlen hutf 13 10 rest
    | arr l helems hlen =>
      have hshape : as_bytes (.Array l) ++ rest =
          42 :: (natDigits l.length ++ 13 :: 10 :: (encodeList l ++ rest)) := by
        simp [as_bytes]
      have hfuel : needF (.Array l) ≤
          (42 :: (natDigits l.length ++ 13 :: 10 :: (encodeList l ++ rest))).length + 1 := by
        have h1 := needF_le_length (WfElem.arr l helems hlen)
        have h2 : (as_bytes (.Array l) ++ rest).length =
            (42 :: (natDigits l.length ++ 13 :: 10 :: (encodeList l ++ rest))).length := by
          rw [hshape]
        rw [List.length_append] at h2
        omega
      rw [hshape, decode_cons_42, ← parse_elem_step_array]
      have := parse_elem_step_encode (WfElem.arr l helems hlen)
        ((42 :: (natDigits l.length ++ 13 :: 10 :: (encodeList l ++ rest))).length + 1) rest hfuel
      rw [hshape] at this
      exact this
  · have hshape : as_bytes (.Integer i) ++ rest = 58 :: (intDigits i ++ 13 :: 10 :: rest) := by
      simp [as_bytes]
    rw [hshape, decode_cons_58]
    exact parse_integer_spec hlo hhi rest

/-! ## `LRANGE` index normalisation -/

/-- For a nonempty list, the code's `clamp`-based normalisation computes the
spec's rule `idx < 0 ? max(0, len+idx) : min(idx, len−1)`. -/
theorem normalize_index_eq_spec (idx len : Int) (hlen : 1 ≤ len) :
    (normalize_index idx len : Int) = normSpecIdx idx len := by
  rw [normalize_index, normSpecIdx]
  by_cases hidx : idx < 0
  · rw [if_pos hidx, if_pos hidx]
    omega
  · rw [if_neg hidx, if_neg hidx]
    omega

theorem normSpecIdx_nonneg (idx len : Int) (hlen : 1 ≤ len) :
    0 ≤ normSpecIdx idx len := by
  rw [normSpecIdx]
  by_cases hidx : idx < 0
  · rw [if_pos hidx]
    omega
  · rw [if_neg hidx]
    omega

/-- `Lists::lrange` agrees with the spec's description on every store, key
and signed index pair. -/
theorem lrange_eq_lrangeSpec (store : Lists) (key : String) (start stop : Int) :
    lrange store key start stop = lrangeSpec store key start stop := by
  rw [lrange, lrangeSpec]
  cases h : alGet store key with
  | none => rfl
  | some l =>
    simp only []
    by_cases h0 : l.length = 0
    · rw [if_pos (by omega), if_pos h0]
    · have hlen : 1 ≤ (l.length : Int) := by omega
      rw [if_neg (by omega), if_neg h0]
      have hs := normalize_index_eq_spec start (l.length : Int) hlen
      have he := normalize_index_eq_spec stop (l.length : Int) hlen
      have hs0 := normSpecIdx_nonneg start (l.length : Int) hlen
      have he0 := normSpecIdx_nonneg stop (l.length : Int) hlen
      by_cases hcmp : normalize_index start (l.length : Int) > normalize_index stop (l.length : Int)
      · rw [if_pos hcmp, if_pos (by omega)]
      · rw [if_neg hcmp, if_neg (by omega)]
        have h1 : normalize_index start (l.length : Int) =
            (normSpecIdx start (l.length : Int)).toNat := by omega
        rw [h1]
        have h2 : normalize_index stop (l.length : Int) -
            (normSpecIdx start (l.length : Int)).toNat + 1 =
            (normSpecIdx stop (l.length : Int) - normSpecIdx start (l.length : Int) + 1).toNat := by
          omega
        rw [h2]

theorem intDigits_bytes (i : Int) : ∀ b ∈ intDigits i, b ≠ 13 ∧ b < 128 := by
  intro b hb
  rw [intDigits] at hb
  split at hb
  · rcases List.mem_cons.mp hb with h | h
    · omega
    · have := natDigits_mem h
      omega
  · have := natDigits_mem hb
    omega

/-! ## Claims -/

/-- **C1** (code bug, evaluated at the failing input): for a buffer starting
with `-`, `RespCodec::decode` answers "Unknown RESP type byte" because its
dispatch has no arm for the error byte, even though `parse_simple_errors`
decodes the very same buffer to the expected `SimpleError` frame. -/
theorem c1_decode_error_byte_unknown_type :
    decode (ascii "-Error message\r\n") = .error .unknownType ∧
    parse_simple_errors (ascii "-Error message\r\n") =
      .ok (some (.SimpleError (ascii "Error message")), []) :=
  ⟨rfl, rfl⟩

/-- **C2** (code bug, evaluated at the failing input): on the buffer `*1\r\n`
— an array header whose single element has not arrived yet — `decode`
returns NeedMore but has already consumed all four header bytes, leaving the
buffer empty instead of untouched. -/
theorem c2_array_header_consumed_on_incomplete :
    decode (ascii "*1\r\n") = .ok (none, []) ∧ ([] : List Nat) ≠ ascii "*1\r\n" :=
  ⟨rfl, by decide⟩

/-- **C3** (counterexample): the round-trip fails on the grammar as claimed:
encoding the frame `SimpleError "x"` and decoding it back does not yield the
frame — `decode` rejects the leading `-` outright. -/
theorem c3_counterexample_simple_error :
    decode (as_bytes (.SimpleError (ascii "x"))) = .error .unknownType := rfl

/-- **C3** (amended): for every frame of the sub-grammar `WfTop` — nonempty
CR/LF-free simple strings, UTF-8 bulk strings, integers at top level, and
arbitrarily nested arrays of simple strings, bulk strings and arrays —
decoding the encoding yields the frame back and consumes exactly its bytes
(any appended rest is left untouched).  `SimpleError` frames, `NullBulk`
(whose decode consumes nothing), and integers inside arrays are excluded:
the code does not round-trip them. -/
theorem c3_roundtrip_sub_grammar (f : RespDataType) (h : WfTop f) (rest : List Nat) :
    decode (as_bytes f ++ rest) = .ok (some f, rest) :=
  decode_as_bytes_wfTop h rest

/-- **C3** witness: the amended round-trip at a concrete nested frame. -/
theorem c3_roundtrip_sub_grammar_witness :
    WfTop (.Array [.SimpleString (ascii "OK"), .BulkString (ascii "hey"), .Array []]) ∧
    decode (as_bytes (.Array [.SimpleString (ascii "OK"), .BulkString (ascii "hey"),
        .Array []]) ++ ascii "+next\r\n") =
      .ok (some (.Array [.SimpleString (ascii "OK"), .BulkString (ascii "hey"), .Array []]),
        ascii "+next\r\n") := by
  have hwf : WfTop (.Array [.SimpleString (ascii "OK"), .BulkString (ascii "hey"),
      .Array []]) := by
    refine Or.inl (WfElem.arr _ ?_ (by decide))
    intro g hg
    simp only [List.mem_cons, List.not_mem_nil, or_false] at hg
    rcases hg with rfl | rfl | rfl
    · exact WfElem.simple _ (by decide) (by decide) (by decide)
    · exact WfElem.bulk _ (by decide) (by decide)
    · exact WfElem.arr _ (by intro g hg; simp at hg) (by decide)
  exact ⟨hwf, c3_roundtrip_sub_grammar _ hwf (ascii "+next\r\n")⟩

/-- **C4** (counterexample): on the bulk-string header `$-2\r\n` the decoder
returns NeedMore (`Ok(None)`) with the buffer untouched — not a Malformed
error. -/
theorem c4_counterexample_negative_length :
    decode (ascii "$-2\r\n") = .ok (none, ascii "$-2\r\n") := rfl

/-- **C4** (amended): for every bulk-string length field that is negative
and not `-1`, the decoder casts the length with `as usize`, so it wraps to
at least `2^63` and the completeness test fails: `decode` returns NeedMore
(`Ok(None)`) with the buffer unchanged, for every buffer shorter than
`2^63` bytes (i.e. always in practice).  No Malformed error is ever
reported for such a length. -/
theorem c4_amended_negative_length_needmore (neg : Int) (hneg : neg ≤ -2)
    (hlo : -(2 ^ 63) ≤ neg) (rest : List Nat)
    (hshort : (36 :: (intDigits neg ++ 13 :: 10 :: rest)).length < 2 ^ 63) :
    decode (36 :: (intDigits neg ++ 13 :: 10 :: rest)) =
      .ok (none, 36 :: (intDigits neg ++ 13 :: 10 :: rest)) := by
  have hmem : ∀ b ∈ intDigits neg, b ≠ 13 ∧ b < 128 := intDigits_bytes neg
  have hcrlf : findCrlf (36 :: (intDigits neg ++ 13 :: 10 :: rest)) =
      some ((intDigits neg).length + 1) := by
    rw [findCrlf_cons _ (by omega), findCrlf_append_crlf (fun b hb => (hmem b hb).1)]
    rfl
  have hne : intDigits neg ≠ [] := by
    rw [intDigits, if_pos (by omega)]
    simp
  have hne' : (intDigits neg).length + 1 ≠ 1 := by
    have := List.length_pos.mpr hne
    omega
  rw [decode_cons_36, parse_bulk_string, hcrlf]
  simp only []
  rw [if_neg hne', listSlice_header 36 (intDigits neg) (13 :: 10 :: rest),
    fromUtf8_of_isUtf8 (isUtf8_ascii fun b hb => (hmem b hb).2)]
  simp only []
  rw [parseI64_intDigits hlo (by omega)]
  simp only []
  rw [if_neg (by omega)]
  have hbig : 2 ^ 63 ≤ asUsize neg := by
    rw [asUsize]
    omega
  rw [if_pos (by omega)]

/-- **C4** witness: the amended behaviour at the concrete input `$-2\r\n`. -/
theorem c4_amended_witness :
    decode (36 :: (intDigits (-2) ++ 13 :: 10 :: [])) =
      .ok (none, 36 :: (intDigits (-2) ++ 13 :: 10 :: [])) :=
  c4_amended_negative_length_needmore (-2) (by decide) (by decide) [] (by decide)

/-- **C5** (code bug, evaluated at the failing input): `Lists::left_pop`
with a count returns `NullBulkString` — not an empty `Array` — both when the
key is absent and when the stored list is empty, because the emptiness guard
runs before the count is examined. -/
theorem c5_lpop_count_missing_or_empty_returns_nullbulk :
    left_pop [] "mylist" (some 2) = (.NullBulkString, []) ∧
    left_pop [("mylist", [])] "mylist" (some 2) = (.NullBulkString, [("mylist", [])]) :=
  ⟨rfl, rfl⟩

/-- **C6** (code bug, evaluated at the failing input): `Strings::increment`
on an expired entry (stored value `"5"`, deadline 10, now 20) removes the
key but replies with the placeholder `SimpleError "Key expired - later
stage"`, instead of creating the entry with value `"1"` and returning
`Integer 1`. -/
theorem c6_incr_expired_returns_placeholder_error :
    increment [("k", ⟨ascii "5", some 10⟩)] "k" 20 =
      (.SimpleError (ascii "Key expired - later stage"), []) := rfl

/-- **C7** (code bug, evaluated at the failing input): with the transaction
queue present (inside MULTI), a further `MULTI` falls into the catch-all arm
of `handle_transaction_command`: it is pushed onto the queue and answered
with `QUEUED`, not with `SimpleError "ERR MULTI calls can not be nested"`.
(The queued `MULTI` later trips `execute_transaction`'s own panic.) -/
theorem c7_multi_in_multi_queued :
    handle_transaction_command (fun _ => .NullBulkString) (some []) .MULTI =
      some (.SimpleString (ascii "QUEUED"), some [.MULTI]) := rfl

/-- **C8**: `Lists::lrange` coincides, on every store, key and signed index
pair, with the spec's description: indices normalised by
`idx < 0 ? max(0, len+idx) : min(idx, len−1)`, the inclusive slice
`[start', stop']`, and an empty array when `start' > stop'` or the list is
empty or absent. -/
theorem c8_lrange_normalisation (store : Lists) (key : String) (start stop : Int) :
    lrange store key start stop = lrangeSpec store key start stop :=
  lrange_eq_lrangeSpec store key start stop

/-- **C9** (code bug, evaluated at the failing input): `Strings::increment`
on the stored text of `i64::MAX` performs the unchecked `current_value + 1`:
with release-profile wrapping semantics it stores and returns
`i64::MIN = -9223372036854775808` (a debug build would panic), rather than
answering `ERR value is not an integer or out of range` and leaving the
value unchanged. -/
theorem c9_incr_overflow_wraps :
    increment [("k", ⟨ascii "9223372036854775807", none⟩)] "k" 0 =
      (.Integer (-(2 ^ 63)), [("k", ⟨ascii "-9223372036854775808", none⟩)]) := rfl

/-- **C10**: the bulk-string decoder never validates the trailing CRLF: for
`$n\r\n`, then exactly `n` payload bytes (any valid UTF-8 payload — the
decoder does check UTF-8), then **any** two bytes whatsoever, `decode`
succeeds with `BulkString payload` and consumes the whole input, the two
trailing bytes included, without comparing them against `\r\n`. -/
theorem c10_bulk_trailing_bytes_unchecked (n : Nat) (hn : n < 2 ^ 63)
    (payload : List Nat) (hlen : payload.length = n) (hutf : isUtf8 payload = true)
    (b1 b2 : Nat) :
    decode (36 :: (natDigits n ++ 13 :: 10 :: (payload ++ [b1, b2]))) =
      .ok (some (.BulkString payload), []) := by
  subst hlen
  rw [decode_cons_36]
  have hshape : payload ++ [b1, b2] = payload ++ b1 :: b2 :: ([] : List Nat) := rfl
  rw [hshape]
  exact parse_bulk_string_spec hn hutf b1 b2 []

/-- **C10** witness: `$3\r\nhey` followed by the two bytes `XY`. -/
theorem c10_bulk_trailing_bytes_unchecked_witness :
    decode (36 :: (natDigits 3 ++ 13 :: 10 :: (ascii "hey" ++ [88, 89]))) =
      .ok (some (.BulkString (ascii "hey")), []) :=
  c10_bulk_trailing_bytes_unchecked 3 (by decide) (ascii "hey") (by decide) (by decide) 88 89

end RedisRs

